import Mathlib

/-!
Shallow embedding of the entry-balancing and automated-entry expansion core
of the ledger repository (src/entry.cc), together with theorems checking the
natural-language specification against it.

External capabilities (the arbitrary-precision amount/balance arithmetic and
the commodity-exchange routine) are not part of src/; they are modelled from
the spec's description of their contracts, as noted on each definition.
-/

namespace Ledger

/-- A commodity is identified by its symbol.  Modelled from the spec: the
canonical deterministic commodity ordering is the lexicographic order on
symbols. -/
abbrev Commodity := String

/-- Lexicographic comparison of character lists by character code. -/
def strLtB : List Char → List Char → Bool
  | [], [] => false
  | [], _ :: _ => true
  | _ :: _, [] => false
  | a :: as, b :: bs =>
    if a.toNat < b.toNat then true
    else if b.toNat < a.toNat then false
    else strLtB as bs

/-- Modelled from the spec: the canonical deterministic ordering of
commodities, a stable lexicographic ordering of the symbols. -/
def commLt (a b : Commodity) : Bool := strLtB a.data b.data

/-- Modelled from the spec: an amount of a single commodity.  The quantity is
an exact rational (the arbitrary-precision decimal capability); `annPrice`
models the lot annotation's recorded acquisition price (price commodity and
per-unit price), `none` when the commodity is not annotated.  An empty
`commodity` string models a commodity-less (bare numeric) amount. -/
structure Amount where
  commodity : Commodity
  qty : ℚ
  annPrice : Option (Commodity × ℚ)
deriving DecidableEq, Repr

/-- Negation of an amount (commodity and annotation kept). -/
def amtNeg (a : Amount) : Amount := { a with qty := -a.qty }

/-- Division of amounts, as used for the per-unit cost: the result carries the
left operand's commodity. -/
def amtDiv (a b : Amount) : Amount := ⟨a.commodity, a.qty / b.qty, none⟩

/-- Absolute value of an amount. -/
def amtAbs (a : Amount) : Amount := { a with qty := |a.qty| }

/-- Multiplication of amounts: the result carries the left operand's
commodity when it has one, otherwise the right operand's. -/
def amtMul (a b : Amount) : Amount :=
  ⟨if a.commodity = "" then b.commodity else a.commodity, a.qty * b.qty, none⟩

/-- Subtraction of amounts (same-commodity use only in the code); the result
carries the left operand's commodity. -/
def amtSub (a b : Amount) : Amount := ⟨a.commodity, a.qty - b.qty, none⟩

/-- Modelled from the spec: a multi-commodity balance is a map from commodity
to quantity, iterated in canonical (lexicographic) order; represented as an
association list sorted strictly by commodity.  Insertion adds to an existing
commodity's quantity (entries are kept even when a quantity reaches zero, as
a map does). -/
def balAdd : List (Commodity × ℚ) → Commodity → ℚ → List (Commodity × ℚ)
  | [], c, q => [(c, q)]
  | (c', q') :: rest, c, q =>
    if c = c' then (c', q' + q) :: rest
    else if commLt c c' then (c, q) :: (c', q') :: rest
    else (c', q') :: balAdd rest c q

/-- The `value_t` of the code: null (no value yet), a single-commodity
amount, or a multi-commodity balance. -/
inductive Value where
  | nullv : Value
  | amt : Amount → Value
  | bal : List (Commodity × ℚ) → Value
deriving DecidableEq, Repr

/-- `value += amount`: a null value becomes the amount; an amount of the same
commodity accumulates; a second commodity promotes to a balance; a balance
absorbs the amount into its map.  (Lot annotations do not participate in
balance keys.) -/
def valueAdd (v : Value) (a : Amount) : Value :=
  match v with
  | .nullv => .amt a
  | .amt a' =>
    if a'.commodity = a.commodity then
      .amt ⟨a'.commodity, a'.qty + a.qty, a'.annPrice⟩
    else
      .bal (balAdd (balAdd [] a'.commodity a'.qty) a.commodity a.qty)
  | .bal b => .bal (balAdd b a.commodity a.qty)

/-- `value -= amount`, as adding the negation (a map subtraction inserts the
negated quantity when the commodity is absent). -/
def valueSub (v : Value) (a : Amount) : Value := valueAdd v (amtNeg a)

/-- Zero test on a value: a balance is zero when every quantity is zero. -/
def valueIsZero : Value → Bool
  | .nullv => true
  | .amt a => a.qty = 0
  | .bal b => b.all (fun p => p.2 = 0)

/-- Modelled from the spec: rounding a quantity to a display precision of
`p` decimal digits (round half up at the last kept digit). -/
def roundQ (p : ℕ) (q : ℚ) : ℚ := (⌊q * (10 : ℚ) ^ p + 1/2⌋ : ℚ) / (10 : ℚ) ^ p

/-- Rounding a value to presentation precision, commodity by commodity; the
precision of each commodity is supplied by `prec`. -/
def roundValue (prec : Commodity → ℕ) : Value → Value
  | .nullv => .nullv
  | .amt a => .amt ⟨a.commodity, roundQ (prec a.commodity) a.qty, a.annPrice⟩
  | .bal b => .bal (b.map (fun p => (p.1, roundQ (prec p.1) p.2)))

/-- Posting state (cleared/pending/uncleared marker). -/
inductive XactState where
  | uncleared : XactState
  | cleared : XactState
  | pending : XactState
deriving DecidableEq, Repr

/-- A posting (`xact_t`): one leg of an entry.  `amount = none` models a null
(unset) amount; the boolean fields model the `XACT_GENERATED`,
`XACT_CALCULATED` and `XACT_AUTO` flags; `mustBalance` models
`xact_t::must_balance()` (postings excluded from the zero-sum invariant have
it false). -/
structure Xact where
  account : String
  amount : Option Amount
  cost : Option Amount
  state : XactState
  generated : Bool
  calculated : Bool
  auto : Bool
  mustBalance : Bool
  note : String
  date : ℕ
  dateEff : ℕ
  begPos : ℕ
  begLine : ℕ
  endPos : ℕ
  endLine : ℕ
deriving DecidableEq, Repr

/-- A default posting, used only as the fallback of total lookups. -/
def defaultXact : Xact :=
  ⟨"", none, none, .uncleared, false, false, false, true, "", 0, 0, 0, 0, 0, 0⟩

/-- The contribution of a posting to the running balance: its `cost` when one
is present, otherwise its `amount` (`cost ? *cost : amount` in the code);
`none` when that is null. -/
def contrib (x : Xact) : Option Amount :=
  match x.cost with
  | some c => some c
  | none => x.amount

/-- The Journal collaborator, reduced to what this core consumes: the
optional default ("basket") account. -/
structure Journal where
  basket : Option String
deriving DecidableEq, Repr

/-- An entry (`entry_base_t`/`entry_t`): an ordered posting list, the
non-owning journal back-reference, the free-form code, and the `normalized`
flag.  Modelled from the spec: the `normalized` flag itself (the entry header
is not part of src/); it becomes true only on a successful `finalize`. -/
structure Entry where
  xacts : List Xact
  journal : Option Journal
  code : Option String
  normalized : Bool
deriving DecidableEq, Repr

/-- `entry_base_t::add_xact`: append a posting. -/
def addXact (e : Entry) (x : Xact) : Entry := { e with xacts := e.xacts ++ [x] }

/-- `entry_base_t::remove_xact`: remove the posting from the list and return
`true` unconditionally. -/
def removeXact (e : Entry) (x : Xact) : Entry × Bool :=
  ({ e with xacts := e.xacts.filter (fun y => y ≠ x) }, true)

/-- Balancing errors (`balance_error` and the logic error of a second null
amount); `unbalanced` carries the rounded residual balance as diagnostic
context.  `internalError` models the defensive assertions (a cost sharing its
amount's commodity, or taking the amount of a null value). -/
inductive BalanceError where
  | multipleNullAmounts : BalanceError
  | unbalanced : Value → BalanceError
  | internalError : BalanceError
deriving DecidableEq, Repr

/-- First loop of `finalize`: accumulate `cost ?? amount` of every
`must_balance` posting into the running balance; a posting with a null
contribution becomes the null posting (tracked by its index `i`), a second
one aborts with `multipleNullAmounts`. -/
def accumulate : List Xact → Value → Option ℕ → ℕ → Except BalanceError (Value × Option ℕ)
  | [], bal, nIdx, _ => .ok (bal, nIdx)
  | x :: xs, bal, nIdx, i =>
    if x.mustBalance then
      match contrib x with
      | some a => accumulate xs (valueAdd bal a) nIdx (i + 1)
      | none =>
        match nIdx with
        | some _ => .error .multipleNullAmounts
        | none => accumulate xs bal (some i) (i + 1)
    else accumulate xs bal nIdx (i + 1)

/-- Accumulation over an entry's posting list, starting from a null balance. -/
def accumulateEntry (xs : List Xact) : Except BalanceError (Value × Option ℕ) :=
  accumulate xs .nullv none 0

/-- Second step of `finalize`: with exactly one posting and a journal default
(basket) account, synthesize a generated posting with unset amount in that
account, inheriting the first posting's state; it becomes the null posting. -/
def basketStep (e : Entry) (nIdx : Option ℕ) : List Xact × Option ℕ :=
  match e.journal with
  | some j =>
    match j.basket with
    | some b =>
      if e.xacts.length = 1 then
        let first := e.xacts.headD defaultXact
        let nx : Xact :=
          ⟨b, none, none, first.state, true, false, false, true, "", 0, 0, 0, 0, 0, 0⟩
        (e.xacts ++ [nx], some e.xacts.length)
      else (e.xacts, nIdx)
    | none => (e.xacts, nIdx)
  | none => (e.xacts, nIdx)

/-- Replace the element at an index of a list (no effect past the end). -/
def listModify (f : Xact → Xact) : ℕ → List Xact → List Xact
  | _, [] => []
  | 0, x :: xs => f x :: xs
  | n + 1, x :: xs => x :: listModify f n xs

/-- A generated posting appended during multi-commodity null resolution:
`new xact_t(account, amount, XACT_GENERATED)`. -/
def mkGen (acct : String) (a : Amount) : Xact :=
  ⟨acct, some a, none, .uncleared, true, false, false, true, "", 0, 0, 0, 0, 0, 0⟩

/-- Third step of `finalize`, when a null posting exists at index `i`: a
single-commodity balance is negated into the null posting (flagged
`calculated`); a multi-commodity balance puts the canonical-first commodity's
negated amount into the null posting and appends one generated posting per
remaining commodity, in the null posting's account.  A still-null balance
hits `as_amount` on a null value: an internal-invariant failure. -/
def resolveNull (xs : List Xact) (i : ℕ) : Value → Except BalanceError (List Xact)
  | .nullv => .error .internalError
  | .amt a =>
    .ok (listModify (fun x => { x with amount := some (amtNeg a), calculated := true }) i xs)
  | .bal [] => .ok xs
  | .bal ((c, q) :: rest) =>
    let acct := (xs.getD i defaultXact).account
    let xs' := listModify (fun x => { x with amount := some ⟨c, -q, none⟩ }) i xs
    .ok (xs' ++ rest.map (fun p => mkGen acct ⟨p.1, -p.2, none⟩))

/-- The condition of the cost-inference loop: the posting has no cost yet,
counts toward the balance, and its amount's commodity differs from the
canonical-first commodity `c1`. -/
def inferCond (c1 : Commodity) (x : Xact) : Bool :=
  x.cost.isNone && x.mustBalance &&
    (match x.amount with
     | some a => decide (a.commodity ≠ c1)
     | none => false)

/-- The cost-inference loop: each posting meeting `inferCond` has its amount
subtracted from the balance, its cost set to `per * amount`, and the new cost
added back into the balance. -/
def inferPass (c1 : Commodity) (per : Amount) : List Xact → Value → List Xact × Value
  | [], bal => ([], bal)
  | x :: xs, bal =>
    if inferCond c1 x then
      let a := x.amount.getD defaultAmt
      let cost := amtMul per a
      let r := inferPass c1 per xs (valueAdd (valueSub bal a) cost)
      ({ x with cost := some cost } :: r.1, r.2)
    else
      let r := inferPass c1 per xs bal
      (x :: r.1, r.2)
where
  /-- Fallback amount for a total lookup (unreachable under the loop's
  short-circuit condition). -/
  defaultAmt : Amount := ⟨"", 0, none⟩

/-- Steps 3 and 4 of `finalize`: resolve the null posting if one exists
(resetting the balance to null), else infer per-unit costs when the balance
spans exactly two commodities with a non-zero second quantity; otherwise do
nothing. -/
def resolveOrInfer (xs : List Xact) (bal : Value) :
    Option ℕ → Except BalanceError (List Xact × Value)
  | some i => do
    let ys ← resolveNull xs i bal
    .ok (ys, .nullv)
  | none =>
    match bal with
    | .bal [(c1, q1), (c2, q2)] =>
      if q2 = 0 then .ok (xs, .bal [(c1, q1), (c2, q2)])
      else
        let per := amtAbs (amtDiv ⟨c1, q1, none⟩ ⟨c2, q2, none⟩)
        .ok (inferPass c1 per xs (.bal [(c1, q1), (c2, q2)]))
    | b => .ok (xs, b)

/-- Modelled from the spec: `commodity_t::exchange` (external).  Given an
amount and its total cost, it returns the amount annotated with the per-unit
acquisition price, the resolved final cost (the total cost), and the cost
basis (the previously recorded lot price times the quantity when the amount
was already annotated, else the cost itself). -/
def exchange (a c : Amount) : Amount × Amount × Amount :=
  let annAmt := { a with annPrice := some (c.commodity, c.qty / a.qty) }
  let basisCost :=
    match a.annPrice with
    | some pr => (⟨pr.1, pr.2 * a.qty, none⟩ : Amount)
    | none => c
  (annAmt, c, basisCost)

/-- Step 5 of `finalize`: for every posting with a cost, invoke the exchange;
a disposal of an annotated lot adds `basis − final` (realized gain/loss) into
the balance, a fresh acquisition replaces the posting's amount with the
annotated amount.  A cost in the amount's own commodity, or a cost on a
posting with a null amount, violates the defensive assertion. -/
def exchangePass : List Xact → Value → Except BalanceError (List Xact × Value)
  | [], bal => .ok ([], bal)
  | x :: xs, bal =>
    match x.cost with
    | none => do
      let r ← exchangePass xs bal
      .ok (x :: r.1, r.2)
    | some c =>
      match x.amount with
      | none => .error .internalError
      | some a =>
        if a.commodity = c.commodity then .error .internalError
        else
          let r3 := exchange a c
          match a.annPrice with
          | some _ => do
            let r ← exchangePass xs (valueAdd bal (amtSub r3.2.2 r3.2.1))
            .ok (x :: r.1, r.2)
          | none => do
            let r ← exchangePass xs bal
            .ok ({ x with amount := some r3.1 } :: r.1, r.2)

/-- Steps 1 through 5 of `finalize`: accumulation, the single-posting basket
default, null resolution or cost inference, and the cost-basis exchange pass,
yielding the final posting list and running balance. -/
def runPasses (e : Entry) : Except BalanceError (List Xact × Value) := do
  let acc ← accumulateEntry e.xacts
  let st := basketStep e acc.2
  let ri ← resolveOrInfer st.1 acc.1 st.2
  exchangePass ri.1 ri.2

/-- `entry_base_t::finalize`: run the passes; succeed when the final balance
is null, or rounds (at presentation precision `prec`) to exactly zero, and
mark the entry normalized; otherwise fail with `unbalanced` carrying the
rounded residual balance. -/
def finalize (prec : Commodity → ℕ) (e : Entry) : Except BalanceError Entry := do
  let r ← runPasses e
  if r.2 = .nullv then
    .ok { e with xacts := r.1, normalized := true }
  else
    let rounded := roundValue prec r.2
    if valueIsZero rounded then
      .ok { e with xacts := r.1, normalized := true }
    else
      .error (.unbalanced rounded)

/-- An automated entry: an opaque boolean predicate over postings and the
template posting list. -/
structure AutoEntry where
  predicate : Xact → Bool
  templateXacts : List Xact

/-- One template application inside `extend_entry`: a commodity-less template
amount is a bare multiplier, applied only when `post` is true, to the matched
posting's amount; a commodity-bearing template amount is applied unchanged
only when `post` is false; otherwise nothing is produced.  The new posting
substitutes the matched posting's account for the `$account`/`@account`
sentinels, copies the template's flags (plus `auto`), state, dates, note and
source positions. -/
def mkAutoXact (i t : Xact) (post : Bool) : Option Xact :=
  let tAmt := t.amount.getD ⟨"", 0, none⟩
  if tAmt.commodity = "" then
    if !post then none
    else
      let iAmt := i.amount.getD ⟨"", 0, none⟩
      some (buildAuto i t (amtMul iAmt tAmt))
  else
    if post then none
    else some (buildAuto i t tAmt)
where
  /-- Construction of the generated posting from the matched posting `i`,
  the template `t` and the computed amount. -/
  buildAuto (i t : Xact) (amt : Amount) : Xact :=
    let acct :=
      if t.account = "$account" ∨ t.account = "@account" then i.account
      else t.account
    ⟨acct, some amt, none, t.state, t.generated, t.calculated, true,
     t.mustBalance, t.note, t.date, t.dateEff, t.begPos, t.begLine,
     t.endPos, t.endLine⟩

/-- `auto_entry_t::extend_entry`: iterate a snapshot of the entry's postings
taken before any expansion; for each snapshot posting matching the predicate,
append the applicable template instantiations to the entry. -/
def extendEntry (ae : AutoEntry) (e : Entry) (post : Bool) : Entry :=
  let initial := e.xacts
  initial.foldl
    (fun acc i =>
      if ae.predicate i then
        ae.templateXacts.foldl
          (fun acc2 t =>
            match mkAutoXact i t post with
            | some x => addXact acc2 x
            | none => acc2)
          acc
      else acc)
    e

/-- `extend_entry_base`: apply every automated entry of the journal's
registry, in registration order. -/
def extendEntryBase (autos : List AutoEntry) (e : Entry) (post : Bool) : Entry :=
  autos.foldl (fun acc ae => extendEntry ae acc post) e

/-- `entry_t::get_state`: report whether all postings share one state,
writing the first posting's state into the caller's variable (threaded here
as `s`); the variable is left unwritten when the list is empty, and
uniformity is reported. -/
def getStateAux (s : XactState) : List Xact → Bool × XactState
  | [] => (true, s)
  | x :: xs => if s ≠ x.state then (false, s) else getStateAux s xs

/-- `entry_t::get_state`, threading the caller-supplied output variable
`s0`: returns the uniformity flag and the final content of the variable. -/
def getState (e : Entry) (s0 : XactState) : Bool × XactState :=
  match e.xacts with
  | [] => (true, s0)
  | x :: xs => getStateAux x.state xs

/-- Success test for an `Except` result. -/
def isOkE : Except BalanceError α → Bool
  | .ok _ => true
  | .error _ => false

/-- A posting whose contribution is null: it counts toward the balance but
has neither a cost nor an amount to contribute. -/
def isNullPost (x : Xact) : Bool := x.mustBalance && (contrib x).isNone

/-- The number of null postings in a list. -/
def countNulls (xs : List Xact) : ℕ := (xs.filter isNullPost).length

/-- The index of the first null posting, if any. -/
def nullIdxOf : List Xact → Option ℕ
  | [] => none
  | x :: rest => if isNullPost x then some 0 else (nullIdxOf rest).map (· + 1)

/-- The quantity of one commodity inside a balance list. -/
def balQty : List (Commodity × ℚ) → Commodity → ℚ
  | [], _ => 0
  | p :: rest, c => (if p.1 = c then p.2 else 0) + balQty rest c

/-- The quantity of one commodity inside a value. -/
def valQty : Value → Commodity → ℚ
  | .nullv, _ => 0
  | .amt a, c => if a.commodity = c then a.qty else 0
  | .bal b, c => balQty b c

/-- The quantity a single posting contributes to one commodity of the
zero-sum invariant. -/
def contribQty (x : Xact) (c : Commodity) : ℚ :=
  if x.mustBalance then
    match contrib x with
    | some a => if a.commodity = c then a.qty else 0
    | none => 0
  else 0

/-- The total contribution of a posting list to one commodity. -/
def contribSum (xs : List Xact) (c : Commodity) : ℚ :=
  (xs.map (contribQty · c)).sum

/-- The multi-commodity sum of the contributions of a posting list (the
entry's invariant holds when this is zero in every commodity). -/
def contribValue (xs : List Xact) : Value :=
  xs.foldl
    (fun v x =>
      if x.mustBalance then
        match contrib x with
        | some a => valueAdd v a
        | none => v
      else v)
    .nullv

/-- The posting synthesized by the single-posting basket default: unset
amount in the basket account `b`, flagged generated, inheriting the state of
the entry's first posting `x0`. -/
def synthXact (b : String) (x0 : Xact) : Xact :=
  ⟨b, none, none, x0.state, true, false, false, true, "", 0, 0, 0, 0, 0, 0⟩

/-- A presentation precision of two digits for every commodity, used by the
concrete evaluations. -/
def prec2 : Commodity → ℕ := fun _ => 2

/-- A plain user-authored posting for the concrete evaluations. -/
def mkPost (acct : String) (a : Option Amount) : Xact :=
  ⟨acct, a, none, .uncleared, false, false, false, true, "", 0, 0, 0, 0, 0, 0⟩

/-- The unbalanced example of the spec: `+10 USD` against `-9 USD`. -/
def eUnb : Entry :=
  ⟨[mkPost "A" (some ⟨"USD", 10, none⟩), mkPost "B" (some ⟨"USD", -9, none⟩)],
   none, none, false⟩

/-- The multi-commodity null-resolution example of the spec: `+10 USD`,
`+5 EUR` and a posting with unset amount. -/
def eC3 : Entry :=
  ⟨[mkPost "A" (some ⟨"USD", 10, none⟩), mkPost "B" (some ⟨"EUR", 5, none⟩),
    mkPost "C" none],
   none, none, false⟩

/-- The two-commodity cost-inference example of the spec: `+10 AAA` against
`-2 BBB`, no null posting, no explicit cost. -/
def eC4 : Entry :=
  ⟨[mkPost "A" (some ⟨"AAA", 10, none⟩), mkPost "B" (some ⟨"BBB", -2, none⟩)],
   none, none, false⟩

/-- The single-posting basket example: one posting and a journal default
account. -/
def eC7 : Entry :=
  ⟨[mkPost "A" (some ⟨"USD", 10, none⟩)], some ⟨some "Basket"⟩, none, false⟩

/-- Two postings both with unset amounts. -/
def eNulls : Entry := ⟨[mkPost "A" none, mkPost "B" none], none, none, false⟩

/-- The entry `finalize` produces from `eC7`: the original posting plus the
resolved basket posting holding `-10 USD`. -/
def rC7 : Entry :=
  ⟨[mkPost "A" (some ⟨"USD", 10, none⟩),
    { synthXact "Basket" (mkPost "A" (some ⟨"USD", 10, none⟩)) with
        amount := some (amtNeg ⟨"USD", 10, none⟩), calculated := true }],
   some ⟨some "Basket"⟩, none, true⟩

/-- A balanced two-posting entry, used by witnesses. -/
def eBal : Entry :=
  ⟨[mkPost "A" (some ⟨"USD", 10, none⟩), mkPost "B" (some ⟨"USD", -10, none⟩)],
   none, none, false⟩

/-- An entry with no postings. -/
def eEmpty : Entry := ⟨[], none, none, false⟩

/-- An entry with a single posting and no journal. -/
def eOne : Entry := ⟨[mkPost "A" (some ⟨"USD", 1, none⟩)], none, none, false⟩

/-- A matched posting for the automated-entry witnesses. -/
def xMatched : Xact := mkPost "Expenses:Food" (some ⟨"USD", 20, none⟩)

/-- A commodity-less (bare multiplier) template posting. -/
def tMult : Xact := mkPost "Savings" (some ⟨"", 1/10, none⟩)

/-- A commodity-bearing template posting. -/
def tFixed : Xact := mkPost "$account" (some ⟨"USD", 5, none⟩)

/-- An automated entry matching postings in the `Expenses:Food` account,
with one multiplier template and one fixed template. -/
def aeEx : AutoEntry :=
  ⟨fun x => x.account = "Expenses:Food", [tMult, tFixed]⟩

/-- The postings one matched posting generates from an automated entry's
templates. -/
def genFor (ae : AutoEntry) (post : Bool) (i : Xact) : List Xact :=
  ae.templateXacts.filterMap (fun t => mkAutoXact i t post)

/-- The postings a snapshot list generates: each posting matching the
predicate contributes its template instantiations, in order. -/
def genAll (ae : AutoEntry) (post : Bool) : List Xact → List Xact
  | [] => []
  | i :: rest =>
    (if ae.predicate i then genFor ae post i else []) ++ genAll ae post rest

theorem bind_ok_e (a : α) (f : α → Except BalanceError β) :
    ((Except.ok a : Except BalanceError α) >>= f) = f a := rfl

theorem bind_err_e (er : BalanceError) (f : α → Except BalanceError β) :
    ((Except.error er : Except BalanceError α) >>= f) = .error er := rfl

/-- C1: for every entry, once the null-posting resolution, cost-inference
and exchange passes have produced a final posting list and running balance,
`finalize` succeeds exactly when that balance is null or rounds (at
presentation precision) to exactly zero; otherwise it fails with an
`unbalanced` error carrying the rounded residual balance. -/
theorem finalize_ok_iff_balanced (prec : Commodity → ℕ) (e : Entry)
    (xs : List Xact) (bal : Value) (h : runPasses e = .ok (xs, bal)) :
    isOkE (finalize prec e) =
      (decide (bal = Value.nullv) || valueIsZero (roundValue prec bal))
    ∧ (bal ≠ Value.nullv → valueIsZero (roundValue prec bal) = false →
        finalize prec e = .error (.unbalanced (roundValue prec bal))) := by
  constructor
  · by_cases h1 : bal = Value.nullv
    · simp [finalize, h, bind_ok_e, h1, isOkE]
    · by_cases h2 : valueIsZero (roundValue prec bal)
      · simp [finalize, h, bind_ok_e, h1, h2, isOkE]
      · simp [finalize, h, bind_ok_e, h1, h2, isOkE]
  · intro h1 h2
    simp [finalize, h, bind_ok_e, h1, h2]

/-- Witness for `finalize_ok_iff_balanced` on the spec's `+10 USD` / `-9 USD`
example: the passes leave the residual `1 USD`, which does not round to zero,
so `finalize` fails with `unbalanced` carrying it. -/
theorem finalize_ok_iff_balanced_w :
    isOkE (finalize prec2 eUnb) =
      (decide ((Value.amt ⟨"USD", 1, none⟩) = Value.nullv)
        || valueIsZero (roundValue prec2 (.amt ⟨"USD", 1, none⟩)))
    ∧ ((Value.amt ⟨"USD", 1, none⟩) ≠ Value.nullv →
        valueIsZero (roundValue prec2 (.amt ⟨"USD", 1, none⟩)) = false →
        finalize prec2 eUnb =
          .error (.unbalanced (roundValue prec2 (.amt ⟨"USD", 1, none⟩)))) :=
  finalize_ok_iff_balanced prec2 eUnb
    [mkPost "A" (some ⟨"USD", 10, none⟩), mkPost "B" (some ⟨"USD", -9, none⟩)]
    (.amt ⟨"USD", 1, none⟩)
    (by norm_num [runPasses, accumulateEntry, accumulate, basketStep,
      resolveOrInfer, exchangePass, valueAdd, contrib, eUnb, mkPost, bind_ok_e])

/-- C9: `remove_xact` reports success for every posting, present in the list
or not; it never returns failure. -/
theorem removeXact_returns_true (e : Entry) (x : Xact) :
    (removeXact e x).2 = true := rfl

/-- C10: `get_state` on an entry with no postings reports a uniform state
while leaving the caller's output variable unwritten; a single posting is
likewise reported uniform, the variable receiving its state. -/
theorem getState_trivial_uniform (e : Entry) (s0 : XactState) (x : Xact) :
    (e.xacts = [] → getState e s0 = (true, s0))
    ∧ (e.xacts = [x] → getState e s0 = (true, x.state)) := by
  constructor <;> intro h <;> simp [getState, h, getStateAux]

/-- Witness for `getState_trivial_uniform` on an empty entry and on a
one-posting entry. -/
theorem getState_trivial_uniform_w :
    getState eEmpty XactState.cleared = (true, XactState.cleared)
    ∧ getState eOne XactState.cleared =
        (true, (mkPost "A" (some ⟨"USD", 1, none⟩)).state) :=
  ⟨(getState_trivial_uniform eEmpty .cleared defaultXact).1 rfl,
   (getState_trivial_uniform eOne .cleared
      (mkPost "A" (some ⟨"USD", 1, none⟩))).2 rfl⟩

theorem countNulls_cons (x : Xact) (xs : List Xact) :
    countNulls (x :: xs) = (if isNullPost x then 1 else 0) + countNulls xs := by
  by_cases h : isNullPost x <;>
    simp [countNulls, List.filter_cons, h, Nat.add_comm]

theorem isNullPost_mustBalance {x : Xact} (h : isNullPost x = true) :
    x.mustBalance = true := by
  simp only [isNullPost, Bool.and_eq_true] at h
  exact h.1

theorem isNullPost_contrib {x : Xact} (h : isNullPost x = true) :
    contrib x = none := by
  simp only [isNullPost, Bool.and_eq_true, Option.isNone_iff_eq_none] at h
  exact h.2

theorem isNullPost_false {x : Xact} (hm : x.mustBalance = true) {a : Amount}
    (hc : contrib x = some a) : isNullPost x = false := by
  simp [isNullPost, hm, hc]

theorem accumulate_err_of_null (xs : List Xact) :
    1 ≤ countNulls xs → ∀ (bal : Value) (j i : ℕ),
      accumulate xs bal (some j) i = .error .multipleNullAmounts := by
  induction xs with
  | nil => intro h; simp [countNulls] at h
  | cons x rest ih =>
    intro h bal j i
    by_cases hn : isNullPost x
    · simp [accumulate, isNullPost_mustBalance hn, isNullPost_contrib hn]
    · have hcount : 1 ≤ countNulls rest := by
        rw [countNulls_cons, if_neg hn] at h; simpa using h
      rcases hm : x.mustBalance with _ | _
      · simpa [accumulate, hm] using ih hcount bal j (i + 1)
      · rcases hc : contrib x with _ | a
        · exact absurd (by simp [isNullPost, hm, hc]) hn
        · simpa [accumulate, hm, hc] using ih hcount (valueAdd bal a) j (i + 1)

theorem accumulate_err_two (xs : List Xact) :
    2 ≤ countNulls xs → ∀ (bal : Value) (i : ℕ),
      accumulate xs bal none i = .error .multipleNullAmounts := by
  induction xs with
  | nil => intro h; simp [countNulls] at h
  | cons x rest ih =>
    intro h bal i
    by_cases hn : isNullPost x
    · have hcount : 1 ≤ countNulls rest := by
        rw [countNulls_cons, if_pos hn] at h; omega
      simpa [accumulate, isNullPost_mustBalance hn, isNullPost_contrib hn] using
        accumulate_err_of_null rest hcount bal i (i + 1)
    · have hcount : 2 ≤ countNulls rest := by
        rw [countNulls_cons, if_neg hn] at h; simpa using h
      rcases hm : x.mustBalance with _ | _
      · simpa [accumulate, hm] using ih hcount bal (i + 1)
      · rcases hc : contrib x with _ | a
        · exact absurd (by simp [isNullPost, hm, hc]) hn
        · simpa [accumulate, hm, hc] using ih hcount (valueAdd bal a) (i + 1)

theorem accumulate_ok_nonull (xs : List Xact) :
    countNulls xs = 0 → ∀ (bal : Value) (n : Option ℕ) (i : ℕ),
      ∃ b, accumulate xs bal n i = .ok (b, n) := by
  induction xs with
  | nil => intro _ bal n i; exact ⟨bal, rfl⟩
  | cons x rest ih =>
    intro h bal n i
    have hn : isNullPost x = false := by
      rcases hx : isNullPost x with _ | _
      · rfl
      · rw [countNulls_cons, if_pos hx] at h; omega
    have hcount : countNulls rest = 0 := by
      rw [countNulls_cons, hn] at h; simpa using h
    rcases hm : x.mustBalance with _ | _
    · obtain ⟨b, hb⟩ := ih hcount bal n (i + 1)
      exact ⟨b, by simpa [accumulate, hm] using hb⟩
    · rcases hc : contrib x with _ | a
      · exact absurd (show isNullPost x = true by simp [isNullPost, hm, hc])
          (by simp [hn])
      · obtain ⟨b, hb⟩ := ih hcount (valueAdd bal a) n (i + 1)
        exact ⟨b, by simpa [accumulate, hm, hc] using hb⟩

theorem accumulate_ok_le_one (xs : List Xact) :
    countNulls xs ≤ 1 → ∀ (bal : Value) (i : ℕ),
      ∃ b, accumulate xs bal none i = .ok (b, (nullIdxOf xs).map (· + i)) := by
  induction xs with
  | nil => intro _ bal i; exact ⟨bal, by simp [accumulate, nullIdxOf]⟩
  | cons x rest ih =>
    intro h bal i
    by_cases hn : isNullPost x
    · have hcount : countNulls rest = 0 := by
        rw [countNulls_cons, if_pos hn] at h; omega
      obtain ⟨b, hb⟩ := accumulate_ok_nonull rest hcount bal (some i) (i + 1)
      refine ⟨b, ?_⟩
      simp [accumulate, isNullPost_mustBalance hn, isNullPost_contrib hn,
        nullIdxOf, hn, hb]
    · have hcount : countNulls rest ≤ 1 := by
        rw [countNulls_cons, if_neg hn] at h; simpa using h
      rcases hm : x.mustBalance with _ | _
      · obtain ⟨b, hb⟩ := ih hcount bal (i + 1)
        refine ⟨b, ?_⟩
        rw [show accumulate (x :: rest) bal none i
              = accumulate rest bal none (i + 1) by simp [accumulate, hm],
          hb]
        cases hni : nullIdxOf rest <;>
            simp [nullIdxOf, hn, hni, Nat.add_assoc, Nat.add_comm] <;> omega
      · rcases hc : contrib x with _ | a
        · exact absurd (by simp [isNullPost, hm, hc]) hn
        · obtain ⟨b, hb⟩ := ih hcount (valueAdd bal a) (i + 1)
          refine ⟨b, ?_⟩
          rw [show accumulate (x :: rest) bal none i
                = accumulate rest (valueAdd bal a) none (i + 1) by
              simp [accumulate, hm, hc],
            hb]
          cases hni : nullIdxOf rest <;>
            simp [nullIdxOf, hn, hni, Nat.add_assoc, Nat.add_comm] <;> omega

theorem accumulate_append (as bs : List Xact) :
    ∀ (bal : Value) (n : Option ℕ) (i : ℕ),
      accumulate (as ++ bs) bal n i =
        (accumulate as bal n i) >>= fun r => accumulate bs r.1 r.2 (i + as.length) := by
  induction as with
  | nil => intro bal n i; simp [accumulate, bind_ok_e]
  | cons x rest ih =>
    intro bal n i
    have h12 : (i + 1) + rest.length = i + (rest.length + 1) := by omega
    rcases hm : x.mustBalance with _ | _
    · rw [List.cons_append,
        show accumulate (x :: (rest ++ bs)) bal n i
          = accumulate (rest ++ bs) bal n (i + 1) by simp [accumulate, hm],
        show accumulate (x :: rest) bal n i
          = accumulate rest bal n (i + 1) by simp [accumulate, hm],
        ih bal n (i + 1)]
      simp only [List.length_cons, h12]
    · rcases hc : contrib x with _ | a
      · rcases n with _ | j
        · rw [List.cons_append,
            show accumulate (x :: (rest ++ bs)) bal none i
              = accumulate (rest ++ bs) bal (some i) (i + 1) by
                simp [accumulate, hm, hc],
            show accumulate (x :: rest) bal none i
              = accumulate rest bal (some i) (i + 1) by simp [accumulate, hm, hc],
            ih bal (some i) (i + 1)]
          simp only [List.length_cons, h12]
        · simp [accumulate, hm, hc, bind_err_e]
      · rw [List.cons_append,
          show accumulate (x :: (rest ++ bs)) bal n i
            = accumulate (rest ++ bs) (valueAdd bal a) n (i + 1) by
              simp [accumulate, hm, hc],
          show accumulate (x :: rest) bal n i
            = accumulate rest (valueAdd bal a) n (i + 1) by
              simp [accumulate, hm, hc],
          ih (valueAdd bal a) n (i + 1)]
        simp only [List.length_cons, h12]

theorem nullIdxOf_isSome (xs : List Xact) :
    1 ≤ countNulls xs → ∃ k, nullIdxOf xs = some k := by
  induction xs with
  | nil => intro h; simp [countNulls] at h
  | cons x rest ih =>
    intro h
    by_cases hn : isNullPost x
    · exact ⟨0, by simp [nullIdxOf, hn]⟩
    · have h1 : 1 ≤ countNulls rest := by
        rw [countNulls_cons, if_neg hn] at h; simpa using h
      obtain ⟨k, hk⟩ := ih h1
      exact ⟨k + 1, by simp [nullIdxOf, hn, hk]⟩

/-- C2: an entry whose must-balance postings include two or more with null
(unset) contributions makes `finalize` fail with `multipleNullAmounts`; the
failure arises during accumulation, at the second null posting, regardless
of the postings after it; with at most one such posting, accumulation
succeeds and records the first null posting's position as the null posting. -/
theorem finalize_multiple_nulls (prec : Commodity → ℕ) (e : Entry) :
    (2 ≤ countNulls e.xacts → finalize prec e = .error .multipleNullAmounts)
    ∧ (countNulls e.xacts ≤ 1 →
        ∃ b, accumulateEntry e.xacts = .ok (b, nullIdxOf e.xacts))
    ∧ (∀ pre y rest, countNulls pre = 1 → isNullPost y = true →
        accumulateEntry (pre ++ y :: rest) = .error .multipleNullAmounts) := by
  refine ⟨fun h => ?_, fun h => ?_, fun pre y rest hpre hy => ?_⟩
  · have ha := accumulate_err_two e.xacts h .nullv 0
    simp [finalize, runPasses, accumulateEntry, ha, bind_err_e]
  · obtain ⟨b, hb⟩ := accumulate_ok_le_one e.xacts h .nullv 0
    refine ⟨b, ?_⟩
    rw [accumulateEntry, hb]
    cases hni : nullIdxOf e.xacts <;> simp [hni]
  · obtain ⟨b, hb⟩ := accumulate_ok_le_one pre (le_of_eq hpre) .nullv 0
    obtain ⟨k, hk⟩ := nullIdxOf_isSome pre (by omega)
    rw [accumulateEntry, accumulate_append pre (y :: rest) .nullv none 0, hb, hk]
    simp [bind_ok_e, accumulate, isNullPost_mustBalance hy, isNullPost_contrib hy]

/-- Witness for `finalize_multiple_nulls`: two null postings abort
`finalize`; the balanced two-posting entry accumulates successfully with no
null posting; a second null posting aborts accumulation whatever follows. -/
theorem finalize_multiple_nulls_w :
    finalize prec2 eNulls = .error .multipleNullAmounts
    ∧ (∃ b, accumulateEntry eBal.xacts = .ok (b, nullIdxOf eBal.xacts))
    ∧ accumulateEntry ([mkPost "A" none] ++ mkPost "B" none :: []) =
        .error .multipleNullAmounts :=
  ⟨(finalize_multiple_nulls prec2 eNulls).1 (by decide),
   (finalize_multiple_nulls prec2 eBal).2.1 (by decide),
   (finalize_multiple_nulls prec2 eEmpty).2.2 [mkPost "A" none]
     (mkPost "B" none) [] (by decide) (by decide)⟩

/-- C5: inside `extend_entry`, a commodity-less template amount acts as a
bare multiplier and yields a posting only in `post = true` mode, with amount
`matched * template`; a commodity-bearing template amount yields a posting
only in `post = false` mode, used unchanged; each non-applicable mode yields
nothing. -/
theorem autoTemplate_modes (i t : Xact) (ia ta : Amount)
    (hi : i.amount = some ia) (ht : t.amount = some ta) :
    (ta.commodity = "" →
      mkAutoXact i t true = some (mkAutoXact.buildAuto i t (amtMul ia ta))
      ∧ mkAutoXact i t false = none)
    ∧ (ta.commodity ≠ "" →
      mkAutoXact i t false = some (mkAutoXact.buildAuto i t ta)
      ∧ mkAutoXact i t true = none)
    ∧ (∀ a, (mkAutoXact.buildAuto i t a).amount = some a) := by
  refine ⟨fun h => ?_, fun h => ?_, fun a => rfl⟩ <;>
    simp [mkAutoXact, hi, ht, Option.getD, h]

/-- Witness for `autoTemplate_modes` on a `0.1` multiplier template and a
`5 USD` fixed template against a matched `20 USD` posting. -/
theorem autoTemplate_modes_w :
    (mkAutoXact xMatched tMult true =
        some (mkAutoXact.buildAuto xMatched tMult
          (amtMul ⟨"USD", 20, none⟩ ⟨"", 1/10, none⟩))
      ∧ mkAutoXact xMatched tMult false = none)
    ∧ (mkAutoXact xMatched tFixed false =
        some (mkAutoXact.buildAuto xMatched tFixed ⟨"USD", 5, none⟩)
      ∧ mkAutoXact xMatched tFixed true = none) :=
  ⟨(autoTemplate_modes xMatched tMult ⟨"USD", 20, none⟩ ⟨"", 1/10, none⟩
      rfl rfl).1 rfl,
   (autoTemplate_modes xMatched tFixed ⟨"USD", 20, none⟩ ⟨"USD", 5, none⟩
      rfl rfl).2.1 (by simp)⟩

theorem templ_foldl (i : Xact) (post : Bool) (ts : List Xact) :
    ∀ acc : Entry,
      ts.foldl
        (fun acc2 t =>
          match mkAutoXact i t post with
          | some x => addXact acc2 x
          | none => acc2)
        acc
      = { acc with xacts :=
            acc.xacts ++ ts.filterMap (fun t => mkAutoXact i t post) } := by
  induction ts with
  | nil => intro acc; simp
  | cons t ts ih =>
    intro acc
    cases h : mkAutoXact i t post with
    | none => simp [List.foldl_cons, h, ih, List.filterMap_cons]
    | some x =>
      simp only [List.foldl_cons, h]
      rw [ih (addXact acc x)]
      simp [addXact, List.filterMap_cons, h, List.append_assoc]

theorem extend_foldl (ae : AutoEntry) (post : Bool) (xs : List Xact) :
    ∀ acc : Entry,
      xs.foldl
        (fun acc i =>
          if ae.predicate i then
            ae.templateXacts.foldl
              (fun acc2 t =>
                match mkAutoXact i t post with
                | some x => addXact acc2 x
                | none => acc2)
              acc
          else acc)
        acc
      = { acc with xacts := acc.xacts ++ genAll ae post xs } := by
  induction xs with
  | nil => intro acc; simp [genAll]
  | cons x xs ih =>
    intro acc
    by_cases hp : ae.predicate x
    · simp only [List.foldl_cons, hp, if_true]
      rw [templ_foldl, ih]
      simp [genAll, hp, genFor, List.append_assoc]
    · simp only [List.foldl_cons, hp, if_false]
      rw [ih]
      simp [genAll, hp]

/-- C6: `extend_entry` matches the predicate only against the snapshot of
the posting list taken before expansion (the entry's postings at call time):
the result appends exactly the generated postings of that snapshot, so a
generated posting is never itself tested or used as a match source, and the
matched sources are exactly the snapshot postings satisfying the predicate. -/
theorem extendEntry_snapshot (ae : AutoEntry) (e : Entry) (post : Bool) :
    extendEntry ae e post = { e with xacts := e.xacts ++ genAll ae post e.xacts }
    ∧ (∀ xs : List Xact,
        genAll ae post xs =
          ((xs.filter ae.predicate).map (genFor ae post)).flatten) := by
  constructor
  · rw [extendEntry, extend_foldl]
  · intro xs
    induction xs with
    | nil => simp [genAll]
    | cons x xs ih =>
      by_cases hp : ae.predicate x <;>
        simp [genAll, hp, List.filter_cons, ih]

theorem inferPass_eq (c1 : Commodity) (per : Amount) (xs : List Xact) :
    ∀ bal : Value,
      inferPass c1 per xs bal =
        (xs.map (fun x =>
           if inferCond c1 x then
             { x with cost := some (amtMul per (x.amount.getD inferPass.defaultAmt)) }
           else x),
         xs.foldl
           (fun b x =>
             if inferCond c1 x then
               valueAdd (valueSub b (x.amount.getD inferPass.defaultAmt))
                 (amtMul per (x.amount.getD inferPass.defaultAmt))
             else b)
           bal) := by
  induction xs with
  | nil => intro bal; simp [inferPass]
  | cons x xs ih =>
    intro bal
    by_cases hc : inferCond c1 x <;> simp [inferPass, hc, ih]

theorem basketStep_id (e : Entry) (n : Option ℕ) (h : e.xacts.length ≠ 1) :
    basketStep e n = (e.xacts, n) := by
  rcases hj : e.journal with _ | j
  · simp [basketStep, hj]
  · rcases hb : j.basket with _ | b
    · simp [basketStep, hj, hb]
    · simp [basketStep, hj, hb, h]

/-- C4: with no null posting and a two-commodity balance with canonical
amounts `(c1, q1)` and `(c2, q2)`: when `q2` is exactly zero, the inference
step does nothing; otherwise each must-balance posting with no cost and a
commodity differing from `c1` has its amount subtracted from the balance,
its cost set to `|x / y| * amount`, and the cost added back; and under those
hypotheses `finalize`'s pass pipeline routes through exactly this step. -/
theorem finalize_cost_inference (e : Entry) (xs : List Xact)
    (c1 c2 : Commodity) (q1 q2 : ℚ) :
    (q2 = 0 → resolveOrInfer xs (.bal [(c1, q1), (c2, q2)]) none =
        .ok (xs, .bal [(c1, q1), (c2, q2)]))
    ∧ (q2 ≠ 0 →
        resolveOrInfer xs (.bal [(c1, q1), (c2, q2)]) none =
          .ok (xs.map (fun x =>
                 if inferCond c1 x then
                   { x with cost := some (amtMul
                       (amtAbs (amtDiv ⟨c1, q1, none⟩ ⟨c2, q2, none⟩))
                       (x.amount.getD inferPass.defaultAmt)) }
                 else x),
               xs.foldl
                 (fun b x =>
                   if inferCond c1 x then
                     valueAdd (valueSub b (x.amount.getD inferPass.defaultAmt))
                       (amtMul (amtAbs (amtDiv ⟨c1, q1, none⟩ ⟨c2, q2, none⟩))
                         (x.amount.getD inferPass.defaultAmt))
                   else b)
                 (.bal [(c1, q1), (c2, q2)])))
    ∧ (accumulateEntry e.xacts = .ok (.bal [(c1, q1), (c2, q2)], none) →
        e.xacts.length ≠ 1 →
        runPasses e =
          resolveOrInfer e.xacts (.bal [(c1, q1), (c2, q2)]) none >>=
            fun ri => exchangePass ri.1 ri.2) := by
  refine ⟨fun h => ?_, fun h => ?_, fun hacc hlen => ?_⟩
  · simp [resolveOrInfer, h]
  · simp [resolveOrInfer, h, inferPass_eq]
  · rw [runPasses, hacc, bind_ok_e, basketStep_id e none hlen]

/-- Witness for `finalize_cost_inference` on the spec's `+10 AAA` / `-2 BBB`
example (and a zero second quantity for the skip case), every hypothesis
discharged at the concrete input. -/
theorem finalize_cost_inference_w :
    resolveOrInfer eC4.xacts (.bal [("AAA", 10), ("BBB", 0)]) none =
        .ok (eC4.xacts, .bal [("AAA", 10), ("BBB", 0)])
    ∧ resolveOrInfer eC4.xacts (.bal [("AAA", 10), ("BBB", -2)]) none =
        .ok (eC4.xacts.map (fun x =>
               if inferCond "AAA" x then
                 { x with cost := some (amtMul
                     (amtAbs (amtDiv ⟨"AAA", 10, none⟩ ⟨"BBB", -2, none⟩))
                     (x.amount.getD inferPass.defaultAmt)) }
               else x),
             eC4.xacts.foldl
               (fun b x =>
                 if inferCond "AAA" x then
                   valueAdd (valueSub b (x.amount.getD inferPass.defaultAmt))
                     (amtMul (amtAbs (amtDiv ⟨"AAA", 10, none⟩ ⟨"BBB", -2, none⟩))
                       (x.amount.getD inferPass.defaultAmt))
                 else b)
               (.bal [("AAA", 10), ("BBB", -2)]))
    ∧ runPasses eC4 =
        resolveOrInfer eC4.xacts (.bal [("AAA", 10), ("BBB", -2)]) none >>=
          fun ri => exchangePass ri.1 ri.2 :=
  ⟨(finalize_cost_inference eC4 eC4.xacts "AAA" "BBB" 10 0).1 rfl,
   (finalize_cost_inference eC4 eC4.xacts "AAA" "BBB" 10 (-2)).2.1 (by norm_num),
   (finalize_cost_inference eC4 eC4.xacts "AAA" "BBB" 10 (-2)).2.2
     (by norm_num [accumulateEntry, accumulate, eC4, mkPost, contrib, valueAdd,
       balAdd, (by decide : commLt "BBB" "AAA" = false),
       (by decide : (("AAA" : String) = "BBB") = False),
       (by decide : (("BBB" : String) = "AAA") = False)])
     (by simp [eC4])⟩

theorem balQty_balAdd (c0 : Commodity) (q0 : ℚ) (c : Commodity) :
    ∀ b : List (Commodity × ℚ),
      balQty (balAdd b c0 q0) c = balQty b c + (if c0 = c then q0 else 0) := by
  intro b
  induction b with
  | nil => simp [balAdd, balQty]
  | cons p rest ih =>
    rcases p with ⟨c', q'⟩
    by_cases h1 : c0 = c'
    · subst h1
      simp only [balAdd, if_pos rfl, balQty]
      by_cases h2 : c0 = c <;> simp [h2] <;> ring
    · by_cases h2 : commLt c0 c'
      · simp [balAdd, h1, h2, balQty]; ring
      · simp [balAdd, h1, h2, balQty, ih]; ring

theorem valQty_valueAdd (v : Value) (a : Amount) (c : Commodity) :
    valQty (valueAdd v a) c =
      valQty v c + (if a.commodity = c then a.qty else 0) := by
  cases v with
  | nullv => simp [valueAdd, valQty]
  | amt a' =>
    by_cases h : a'.commodity = a.commodity
    · simp only [valueAdd, if_pos h, valQty]
      rw [← h]
      by_cases h2 : a'.commodity = c <;> simp [h2]
    · simp [valueAdd, h, valQty, balQty_balAdd, balQty]
  | bal b => simp [valueAdd, valQty, balQty_balAdd]

theorem contrib_none_cost {x : Xact} (h : contrib x = none) : x.cost = none := by
  rcases hc : x.cost with _ | a
  · rfl
  · simp [contrib, hc] at h

theorem contribSum_cons (x : Xact) (xs : List Xact) (c : Commodity) :
    contribSum (x :: xs) c = contribQty x c + contribSum xs c := by
  simp [contribSum]

theorem contribSum_append (xs ys : List Xact) (c : Commodity) :
    contribSum (xs ++ ys) c = contribSum xs c + contribSum ys c := by
  simp [contribSum]

theorem contribSum_map_gen (acct : String) (rest : List (Commodity × ℚ))
    (c : Commodity) :
    contribSum (rest.map (fun p => mkGen acct ⟨p.1, -p.2, none⟩)) c =
      -(balQty rest c) := by
  induction rest with
  | nil => simp [contribSum, balQty]
  | cons p rest ih =>
    rw [List.map_cons, contribSum_cons, ih]
    simp only [mkGen, contribQty, contrib, balQty]
    by_cases h : p.1 = c <;> simp [h] <;> ring

theorem accumulate_qty (xs : List Xact) :
    ∀ (bal : Value) (n : Option ℕ) (i : ℕ) (b : Value) (n' : Option ℕ),
      accumulate xs bal n i = .ok (b, n') →
      ∀ c, valQty b c = valQty bal c + contribSum xs c := by
  induction xs with
  | nil =>
    intro bal n i b n' h c
    simp only [accumulate, Except.ok.injEq, Prod.mk.injEq] at h
    rw [← h.1]
    simp [contribSum]
  | cons x xs ih =>
    intro bal n i b n' h c
    rcases hm : x.mustBalance with _ | _
    · rw [show accumulate (x :: xs) bal n i = accumulate xs bal n (i + 1) by
        simp [accumulate, hm]] at h
      rw [ih bal n (i + 1) b n' h c, contribSum_cons]
      simp [contribQty, hm]
    · rcases hc : contrib x with _ | a
      · rcases n with _ | j
        · rw [show accumulate (x :: xs) bal none i
              = accumulate xs bal (some i) (i + 1) by simp [accumulate, hm, hc]] at h
          rw [ih bal (some i) (i + 1) b n' h c, contribSum_cons]
          simp [contribQty, hm, hc]
        · rw [show accumulate (x :: xs) bal (some j) i
              = .error .multipleNullAmounts by simp [accumulate, hm, hc]] at h
          cases h
      · rw [show accumulate (x :: xs) bal n i
            = accumulate xs (valueAdd bal a) n (i + 1) by
          simp [accumulate, hm, hc]] at h
        rw [ih (valueAdd bal a) n (i + 1) b n' h c, contribSum_cons,
          valQty_valueAdd]
        simp [contribQty, hm, hc]
        ring

theorem listModify_length (f : Xact → Xact) :
    ∀ (i : ℕ) (xs : List Xact), (listModify f i xs).length = xs.length := by
  intro i xs
  induction xs generalizing i with
  | nil => cases i <;> rfl
  | cons x xs ih => cases i <;> simp [listModify, ih]

theorem contribSum_modify (f : Xact → Xact) (xs : List Xact) :
    ∀ i, i < xs.length → ∀ c,
      contribSum (listModify f i xs) c =
        contribSum xs c - contribQty (xs.getD i defaultXact) c
          + contribQty (f (xs.getD i defaultXact)) c := by
  induction xs with
  | nil => intro i h; simp at h
  | cons x xs ih =>
    intro i hi c
    cases i with
    | zero => simp [listModify, contribSum_cons]; ring
    | succ n =>
      have hn : n < xs.length := by simpa using hi
      simp only [listModify, contribSum_cons, List.getD_cons_succ]
      rw [ih n hn c]
      ring

/-- C3 (amended): with exactly one null posting and a multi-commodity
accumulated balance, the null posting receives the negation of the
canonical-first commodity's amount and one generated posting is appended for
each remaining commodity in canonical order, in the null posting's account
(so the extra generated postings number one fewer than the commodities — at
`+10 USD`, `+5 EUR`, null, that is 1, not 2 — and every commodity's
contributions sum to zero). -/
theorem finalize_null_multi (xs : List Xact) (i : ℕ) (c0 : Commodity) (q0 : ℚ)
    (rest : List (Commodity × ℚ))
    (hacc : accumulateEntry xs = .ok (.bal ((c0, q0) :: rest), some i))
    (hi : i < xs.length)
    (hnull : isNullPost (xs.getD i defaultXact) = true) :
    resolveOrInfer xs (.bal ((c0, q0) :: rest)) (some i) =
      .ok ((listModify (fun x => { x with amount := some ⟨c0, -q0, none⟩ }) i xs)
            ++ rest.map
                (fun p => mkGen (xs.getD i defaultXact).account ⟨p.1, -p.2, none⟩),
           .nullv)
    ∧ ((listModify (fun x => { x with amount := some ⟨c0, -q0, none⟩ }) i xs)
          ++ rest.map
              (fun p => mkGen (xs.getD i defaultXact).account
                ⟨p.1, -p.2, none⟩)).length = xs.length + rest.length
    ∧ (∀ c, contribSum
        ((listModify (fun x => { x with amount := some ⟨c0, -q0, none⟩ }) i xs)
          ++ rest.map
              (fun p => mkGen (xs.getD i defaultXact).account
                ⟨p.1, -p.2, none⟩)) c = 0) := by
  refine ⟨rfl, ?_, fun c => ?_⟩
  · simp [listModify_length]
  · have hsum := accumulate_qty xs .nullv none 0 (.bal ((c0, q0) :: rest))
      (some i) hacc c
    simp only [valQty, balQty] at hsum
    have hcontrib : contrib (xs.getD i defaultXact) = none :=
      isNullPost_contrib hnull
    have hmb : (xs.getD i defaultXact).mustBalance = true :=
      isNullPost_mustBalance hnull
    have hcost : (xs.getD i defaultXact).cost = none := contrib_none_cost hcontrib
    have hold : contribQty (xs.getD i defaultXact) c = 0 := by
      simp only [contribQty, hcontrib]
      simp
    have hnew : contribQty
        ((fun x => { x with amount := some ⟨c0, -q0, none⟩ })
          (xs.getD i defaultXact)) c
        = if c0 = c then -q0 else 0 := by
      simp only [contribQty, contrib, hcost, hmb]
      simp
    rw [contribSum_append, contribSum_modify _ xs i hi c, hold, hnew,
      contribSum_map_gen]
    have hx : contribSum xs c = (if c0 = c then q0 else 0) + balQty rest c := by
      linarith [hsum]
    rw [hx]
    by_cases h : c0 = c <;> simp [h]

/-- Witness for `finalize_null_multi` at the `+10 USD`, `+5 EUR`, null
example: the canonical-first commodity is `EUR`, the single remaining
commodity `USD` yields exactly one generated posting, and both commodities
sum to zero. -/
theorem finalize_null_multi_w :
    resolveOrInfer eC3.xacts (.bal [("EUR", 5), ("USD", 10)]) (some 2) =
      .ok ((listModify (fun x => { x with amount := some ⟨"EUR", -5, none⟩ }) 2
              eC3.xacts)
            ++ [("USD", (10 : ℚ))].map
                (fun p => mkGen (eC3.xacts.getD 2 defaultXact).account
                  ⟨p.1, -p.2, none⟩),
           .nullv)
    ∧ ((listModify (fun x => { x with amount := some ⟨"EUR", -5, none⟩ }) 2
          eC3.xacts)
          ++ [("USD", (10 : ℚ))].map
              (fun p => mkGen (eC3.xacts.getD 2 defaultXact).account
                ⟨p.1, -p.2, none⟩)).length = eC3.xacts.length + 1
    ∧ (∀ c, contribSum
        ((listModify (fun x => { x with amount := some ⟨"EUR", -5, none⟩ }) 2
            eC3.xacts)
          ++ [("USD", (10 : ℚ))].map
              (fun p => mkGen (eC3.xacts.getD 2 defaultXact).account
                ⟨p.1, -p.2, none⟩)) c = 0) :=
  finalize_null_multi eC3.xacts 2 "EUR" 5 [("USD", 10)]
    (by norm_num [accumulateEntry, accumulate, eC3, mkPost, contrib, valueAdd,
      balAdd, (by decide : commLt "EUR" "USD" = true),
      (by decide : (("USD" : String) = "EUR") = False),
      (by decide : (("EUR" : String) = "USD") = False)])
    (by simp [eC3])
    (by decide)

/-- C3, the claim as frozen, is false at the spec's own example: after
`finalize` on `+10 USD`, `+5 EUR`, null, the entry holds 4 postings of which
exactly 1 is a generated extra beyond the null posting resolved in place —
not 2. -/
theorem finalize_null_multi_cex :
    (finalize prec2 eC3).toOption.map
        (fun r => ((r.xacts.filter (fun x => x.generated)).length,
          r.xacts.length))
      = some (1, 4)
    ∧ (1 : ℕ) ≠ 2 := by
  refine ⟨?_, by decide⟩
  norm_num [finalize, runPasses, accumulateEntry, accumulate, basketStep,
    resolveOrInfer, resolveNull, exchangePass, valueAdd, contrib, eC3, mkPost,
    bind_ok_e, listModify, mkGen, balAdd, Except.toOption, List.filter,
    (by decide : commLt "EUR" "USD" = true),
    (by decide : (("USD" : String) = "EUR") = False),
    (by decide : (("EUR" : String) = "USD") = False)]

/-- C8: `finalize` marks the entry normalized exactly on a successful
return: the returned entry carries `normalized = true`, a failing `finalize`
returns no entry at all, and the other operations on an entry (`add_xact`,
`remove_xact`, `extend_entry`) never change the flag. -/
theorem finalize_sets_normalized (prec : Commodity → ℕ) (e r : Entry)
    (x p : Xact) (ae : AutoEntry) (post : Bool)
    (h : finalize prec e = .ok r) :
    r.normalized = true
    ∧ (addXact e x).normalized = e.normalized
    ∧ ((removeXact e p).1).normalized = e.normalized
    ∧ (extendEntry ae e post).normalized = e.normalized := by
  refine ⟨?_, rfl, rfl, ?_⟩
  · simp only [finalize] at h
    cases hr : runPasses e with
    | error er => rw [hr, bind_err_e] at h; cases h
    | ok pr =>
      rw [hr, bind_ok_e] at h
      by_cases h1 : pr.2 = Value.nullv
      · rw [if_pos h1] at h; cases h; rfl
      · rw [if_neg h1] at h
        by_cases h2 : valueIsZero (roundValue prec pr.2)
        · rw [if_pos h2] at h; cases h; rfl
        · rw [if_neg h2] at h; cases h
  · rw [extendEntry, extend_foldl]

/-- Witness for `finalize_sets_normalized` on the balanced `+10 USD` /
`-10 USD` entry. -/
theorem finalize_sets_normalized_w :
    ({ eBal with normalized := true } : Entry).normalized = true
    ∧ (addXact eBal defaultXact).normalized = eBal.normalized
    ∧ ((removeXact eBal defaultXact).1).normalized = eBal.normalized
    ∧ (extendEntry aeEx eBal true).normalized = eBal.normalized :=
  finalize_sets_normalized prec2 eBal { eBal with normalized := true }
    defaultXact defaultXact aeEx true
    (by norm_num [finalize, runPasses, accumulateEntry, accumulate, basketStep,
      resolveOrInfer, exchangePass, valueAdd, contrib, eBal, mkPost, bind_ok_e,
      valueIsZero, roundValue, roundQ])

/-- C7: with exactly one posting and a journal default (basket) account,
`finalize` synthesizes a second generated posting with unset amount in the
basket account, inheriting the first posting's state, as the null posting;
and on success the entry has exactly two postings, the second generated,
calculated, in the basket account, with the first posting's state, and the
entry's must-balance contributions sum to zero. -/
theorem finalize_single_basket (prec : Commodity → ℕ) (e : Entry) (j : Journal)
    (x0 : Xact) (b : String) (r : Entry)
    (hx : e.xacts = [x0]) (hj : e.journal = some j) (hb : j.basket = some b) :
    ((∀ n, basketStep e n = ([x0, synthXact b x0], some 1))
      ∧ (synthXact b x0).amount = none
      ∧ (synthXact b x0).generated = true
      ∧ (synthXact b x0).state = x0.state)
    ∧ (finalize prec e = .ok r →
        r.xacts.length = 2
        ∧ (r.xacts.getD 1 defaultXact).generated = true
        ∧ (r.xacts.getD 1 defaultXact).calculated = true
        ∧ (r.xacts.getD 1 defaultXact).account = b
        ∧ (r.xacts.getD 1 defaultXact).state = x0.state
        ∧ valueIsZero (contribValue r.xacts) = true) := by
  have hbs : ∀ n, basketStep e n = ([x0, synthXact b x0], some 1) := by
    intro n
    simp [basketStep, hj, hb, hx, synthXact]
  refine ⟨⟨hbs, rfl, rfl, rfl⟩, fun hok => ?_⟩
  rcases hm : x0.mustBalance with _ | _
  · have hrp : runPasses e = .error .internalError := by
      simp [runPasses, accumulateEntry, accumulate, hx, hm, bind_ok_e, hbs,
        resolveOrInfer, resolveNull, bind_err_e]
    simp only [finalize, hrp, bind_err_e] at hok
    cases hok
  · rcases hc0 : contrib x0 with _ | a
    · have hrp : runPasses e = .error .internalError := by
        simp [runPasses, accumulateEntry, accumulate, hx, hm, hc0, bind_ok_e,
          hbs, resolveOrInfer, resolveNull, bind_err_e]
      simp only [finalize, hrp, bind_err_e] at hok
      cases hok
    · have hacc : accumulateEntry e.xacts = .ok (.amt a, none) := by
        simp [accumulateEntry, accumulate, hx, hm, hc0, valueAdd]
      have hres : resolveOrInfer [x0, synthXact b x0] (.amt a) (some 1) =
          .ok ([x0, { synthXact b x0 with
                        amount := some (amtNeg a), calculated := true }],
               .nullv) := by
        simp [resolveOrInfer, resolveNull, listModify, synthXact, bind_ok_e]
      have hrp : runPasses e =
          exchangePass
            [x0, { synthXact b x0 with
                     amount := some (amtNeg a), calculated := true }] .nullv := by
        simp [runPasses, hacc, bind_ok_e, hbs, hres]
      rcases hcost : x0.cost with _ | c
      · have hamt : x0.amount = some a := by
          simpa [contrib, hcost] using hc0
        have hex : exchangePass
            [x0, { synthXact b x0 with
                     amount := some (amtNeg a), calculated := true }] .nullv =
            .ok ([x0, { synthXact b x0 with
                          amount := some (amtNeg a), calculated := true }],
                 .nullv) := by
          simp [exchangePass, hcost, synthXact, bind_ok_e]
        simp only [finalize, hrp, hex, bind_ok_e, if_pos rfl] at hok
        cases hok
        refine ⟨rfl, rfl, rfl, rfl, rfl, ?_⟩
        simp [contribValue, contrib, hm, hcost, hamt, synthXact, valueAdd,
          amtNeg, valueIsZero]
      · have hac : a = c := by
          simp [contrib, hcost] at hc0
          exact hc0.symm
        rcases hamt : x0.amount with _ | a0
        · have hex : exchangePass
              [x0, { synthXact b x0 with
                       amount := some (amtNeg a), calculated := true }] .nullv =
              .error .internalError := by
            simp [exchangePass, hcost, hamt]
          simp only [finalize, hrp, hex, bind_err_e] at hok
          cases hok
        · by_cases hcc : a0.commodity = c.commodity
          · have hex : exchangePass
                [x0, { synthXact b x0 with
                         amount := some (amtNeg a), calculated := true }] .nullv =
                .error .internalError := by
              simp [exchangePass, hcost, hamt, hcc]
            simp only [finalize, hrp, hex, bind_err_e] at hok
            cases hok
          · rcases hann : a0.annPrice with _ | pr
            · have hex : exchangePass
                  [x0, { synthXact b x0 with
                           amount := some (amtNeg a), calculated := true }]
                  .nullv =
                  .ok ([{ x0 with amount := some (exchange a0 c).1 },
                        { synthXact b x0 with
                            amount := some (amtNeg a), calculated := true }],
                       .nullv) := by
                simp [exchangePass, hcost, hamt, hcc, hann, synthXact, bind_ok_e]
              simp only [finalize, hrp, hex, bind_ok_e, if_pos rfl] at hok
              cases hok
              refine ⟨rfl, rfl, rfl, rfl, rfl, ?_⟩
              simp [contribValue, contrib, hm, hcost, hac, synthXact, valueAdd,
                amtNeg, valueIsZero]
            · have hex : exchangePass
                  [x0, { synthXact b x0 with
                           amount := some (amtNeg a), calculated := true }]
                  .nullv =
                  .ok ([x0, { synthXact b x0 with
                                amount := some (amtNeg a), calculated := true }],
                       .amt (amtSub (exchange a0 c).2.2 (exchange a0 c).2.1)) := by
                simp [exchangePass, hcost, hamt, hcc, hann, synthXact, bind_ok_e,
                  valueAdd]
              by_cases hz : valueIsZero (roundValue prec
                  (.amt (amtSub (exchange a0 c).2.2 (exchange a0 c).2.1)))
              · simp only [finalize, hrp, hex, bind_ok_e] at hok
                rw [if_neg (by simp), if_pos hz] at hok
                cases hok
                refine ⟨rfl, rfl, rfl, rfl, rfl, ?_⟩
                simp [contribValue, contrib, hm, hcost, hac, synthXact,
                  valueAdd, amtNeg, valueIsZero]
              · simp only [finalize, hrp, hex, bind_ok_e] at hok
                rw [if_neg (by simp), if_neg hz] at hok
                cases hok

/-- Witness for `finalize_single_basket` on the single-posting `+10 USD`
entry with basket account `Basket`. -/
theorem finalize_single_basket_w :
    ((∀ n, basketStep eC7 n =
        ([mkPost "A" (some ⟨"USD", 10, none⟩),
          synthXact "Basket" (mkPost "A" (some ⟨"USD", 10, none⟩))], some 1))
      ∧ (synthXact "Basket" (mkPost "A" (some ⟨"USD", 10, none⟩))).amount = none
      ∧ (synthXact "Basket" (mkPost "A" (some ⟨"USD", 10, none⟩))).generated = true
      ∧ (synthXact "Basket" (mkPost "A" (some ⟨"USD", 10, none⟩))).state =
          (mkPost "A" (some ⟨"USD", 10, none⟩)).state)
    ∧ (rC7.xacts.length = 2
        ∧ (rC7.xacts.getD 1 defaultXact).generated = true
        ∧ (rC7.xacts.getD 1 defaultXact).calculated = true
        ∧ (rC7.xacts.getD 1 defaultXact).account = "Basket"
        ∧ (rC7.xacts.getD 1 defaultXact).state =
            (mkPost "A" (some ⟨"USD", 10, none⟩)).state
        ∧ valueIsZero (contribValue rC7.xacts) = true) :=
  ⟨(finalize_single_basket prec2 eC7 ⟨some "Basket"⟩
      (mkPost "A" (some ⟨"USD", 10, none⟩)) "Basket" rC7 rfl rfl rfl).1,
   (finalize_single_basket prec2 eC7 ⟨some "Basket"⟩
      (mkPost "A" (some ⟨"USD", 10, none⟩)) "Basket" rC7 rfl rfl rfl).2
     (by norm_num [finalize, runPasses, accumulateEntry, accumulate, basketStep,
       resolveOrInfer, resolveNull, exchangePass, valueAdd, contrib, eC7,
       mkPost, bind_ok_e, listModify, synthXact, rC7, amtNeg])⟩

end Ledger
